import Mathlib

/-!
# Verification of the aws-upskilling repository

Shallow embedding of the two source files:

* `src/buildit/lambda_function.py` — the CSV-to-Stream Forwarder: an
  S3-triggered handler that parses a CSV object and forwards its rows to a
  Kinesis stream in batches of at most 500 records.
* `src/emr_script_1.py` — the Table Projection Job: a Spark batch job that
  reads a Glue table, projects a column list and writes the result as a new
  table in overwrite mode.

External services (S3, Kinesis, the Spark session and catalog) are modelled
as oracle parameters; the handler additionally returns the traces of the
calls it issues to them, so that properties about "which calls are made"
are statable.  Python library functions used by the code (`json.dumps`,
`json.loads`, `dict`, `zip`, `str.split`, `str.strip`) are given concrete
executable models faithful to their documented behaviour.
-/

namespace AwsUpskilling

/-! ## Python `dict` built from `zip` (lambda_function.py line 53)

`dict(zip(header, row))` builds a mapping keyed by the header fields:
`zip` truncates to the shorter of the two lists, and `dict` keeps the
position of the first occurrence of a key while the last value for a
repeated key wins.  We model the dict as an association list with these
exact semantics. -/

/-- Python `d[k] = v` on an insertion-ordered dict: if `k` is already
present its value is updated in place, otherwise the pair is appended. -/
def dictInsert (d : List (String × String)) (k v : String) :
    List (String × String) :=
  if (d.map Prod.fst).contains k then
    d.map (fun p => if p.1 = k then (k, v) else p)
  else
    d ++ [(k, v)]

/-- Python `dict(pairs)`: fold `dictInsert` over the pairs. -/
def pythonDict (ps : List (String × String)) : List (String × String) :=
  ps.foldl (fun d p => dictInsert d p.1 p.2) []

/-- `record_data = dict(zip(header, row))` (lambda_function.py line 53). -/
def recordData (header row : List String) : List (String × String) :=
  pythonDict (header.zip row)

/-! ## Batching loop of `lambda_handler` (lambda_function.py lines 47–74)

The loop state carries the list of batch calls already issued to Kinesis
(the effect trace of `_send_batch_to_kinesis`), the current partial batch
`records_batch`, and `records_sent_count`, exactly as in the source. -/

/-- A record for the Kinesis `PutRecords` API (lambda_function.py
lines 59–62): JSON payload plus a partition key. -/
structure KinesisRecord where
  data : String
  partitionKey : String
  deriving DecidableEq, Repr

/-- `KINESIS_BATCH_SIZE = 500` (lambda_function.py line 15). -/
def KINESIS_BATCH_SIZE : Nat := 500

/-- State of the row-processing loop of `lambda_handler`. -/
structure LoopState where
  /-- the batches already flushed to `_send_batch_to_kinesis`, in order -/
  batches : List (List KinesisRecord)
  /-- `records_batch` -/
  records_batch : List KinesisRecord
  /-- `records_sent_count` -/
  records_sent_count : Nat
  deriving Repr

/-- One iteration of the `for row in csv_reader` loop after the record has
been built (lambda_function.py lines 63–69): append to the batch; when the
batch reaches `KINESIS_BATCH_SIZE`, send it, add its length to the count
and clear it. -/
def processRecord (st : LoopState) (kr : KinesisRecord) : LoopState :=
  let rb := st.records_batch ++ [kr]
  if rb.length = KINESIS_BATCH_SIZE then
    { batches := st.batches ++ [rb]
      records_batch := []
      records_sent_count := st.records_sent_count + rb.length }
  else
    { st with records_batch := rb }

/-- Step 5 of the handler (lambda_function.py lines 72–74): flush the
remaining partial batch if it is nonempty. -/
def flushRemaining (st : LoopState) : LoopState :=
  if st.records_batch.isEmpty then st
  else
    { batches := st.batches ++ [st.records_batch]
      records_batch := []
      records_sent_count := st.records_sent_count + st.records_batch.length }

/-- Run the whole batching loop over a prepared list of Kinesis records,
starting from the empty state of lines 47–48, then flush. -/
def runBatching (krs : List KinesisRecord) : LoopState :=
  flushRemaining (krs.foldl processRecord ⟨[], [], 0⟩)

/-! ### Invariants of the batching loop -/

/-- Loop invariant: the count equals 500 times the number of flushed
batches, the partial batch is strictly below the threshold, every flushed
batch has exactly 500 records, and the flushed batches joined with the
partial batch are exactly the records seen so far. -/
def LoopInv (seen : List KinesisRecord) (st : LoopState) : Prop :=
  st.records_sent_count = KINESIS_BATCH_SIZE * st.batches.length ∧
  st.records_batch.length < KINESIS_BATCH_SIZE ∧
  (∀ b ∈ st.batches, b.length = KINESIS_BATCH_SIZE) ∧
  st.batches.flatten ++ st.records_batch = seen

theorem loopInv_init : LoopInv [] ⟨[], [], 0⟩ := by
  refine ⟨rfl, by simp [KINESIS_BATCH_SIZE], by simp, by simp⟩

theorem loopInv_step {seen : List KinesisRecord} {st : LoopState}
    (h : LoopInv seen st) (kr : KinesisRecord) :
    LoopInv (seen ++ [kr]) (processRecord st kr) := by
  obtain ⟨hcount, hlt, hall, hjoin⟩ := h
  unfold processRecord
  by_cases hfull : (st.records_batch ++ [kr]).length = KINESIS_BATCH_SIZE
  · simp only [hfull, if_true]
    refine ⟨?_, ?_, ?_, ?_⟩
    · simp [hcount, hfull, Nat.mul_add]
    · simp [KINESIS_BATCH_SIZE]
    · intro b hb
      rcases List.mem_append.mp hb with hb | hb
      · exact hall b hb
      · simp only [List.mem_singleton] at hb
        subst hb; exact hfull
    · simp [List.flatten_append, ← hjoin]
  · simp only [hfull, if_false]
    refine ⟨hcount, ?_, hall, ?_⟩
    · show (st.records_batch ++ [kr]).length < KINESIS_BATCH_SIZE
      simp only [List.length_append, List.length_singleton] at hfull ⊢
      omega
    · simp [← hjoin]

theorem loopInv_fold (krs : List KinesisRecord) :
    ∀ (seen : List KinesisRecord) (st : LoopState), LoopInv seen st →
      LoopInv (seen ++ krs) (krs.foldl processRecord st) := by
  induction krs with
  | nil => intro seen st h; simpa using h
  | cons kr krs ih =>
    intro seen st h
    have h1 := loopInv_step h kr
    have h2 := ih (seen ++ [kr]) (processRecord st kr) h1
    simpa using h2

theorem flatten_length_of_all (bs : List (List KinesisRecord))
    (h : ∀ b ∈ bs, b.length = KINESIS_BATCH_SIZE) :
    bs.flatten.length = KINESIS_BATCH_SIZE * bs.length := by
  induction bs with
  | nil => simp
  | cons b bs ih =>
    simp only [List.flatten_cons, List.length_append, List.length_cons]
    rw [h b (by simp), ih (fun x hx => h x (by simp [hx]))]
    ring

/-- After the full loop and the final flush: the number of batch calls is
`⌈N/500⌉`, each call carries at most 500 records, the calls joined are
exactly the input records, and the final count is `N`. -/
theorem runBatching_spec (krs : List KinesisRecord) :
    (runBatching krs).batches.length = (krs.length + (KINESIS_BATCH_SIZE - 1)) / KINESIS_BATCH_SIZE ∧
    (∀ b ∈ (runBatching krs).batches, b.length ≤ KINESIS_BATCH_SIZE) ∧
    (runBatching krs).batches.flatten = krs ∧
    (runBatching krs).records_sent_count = krs.length := by
  have hinv := loopInv_fold krs [] ⟨[], [], 0⟩ loopInv_init
  simp only [List.nil_append] at hinv
  obtain ⟨hcount, hlt, hall, hjoin⟩ := hinv
  set st := krs.foldl processRecord ⟨[], [], 0⟩ with hst
  have hjl := flatten_length_of_all st.batches hall
  have hK : KINESIS_BATCH_SIZE = 500 := rfl
  rw [hK] at hcount hlt hjl
  have hlen : krs.length = 500 * st.batches.length + st.records_batch.length := by
    have h2 := congrArg List.length hjoin
    simp only [List.length_append] at h2
    omega
  rcases hrb : st.records_batch with _ | ⟨r, rs⟩
  · rw [hrb] at hjoin hlen
    simp only [List.length_nil, Nat.add_zero] at hlen
    simp only [List.append_nil] at hjoin
    have hrun : runBatching krs = st := by
      simp [runBatching, ← hst, flushRemaining, hrb]
    rw [hrun, hK]
    refine ⟨by omega, fun b hb => le_of_eq (hall b hb), hjoin, by omega⟩
  · rw [hrb] at hjoin hlen hlt
    simp only [List.length_cons] at hlen hlt
    have hrun : runBatching krs =
        { batches := st.batches ++ [r :: rs]
          records_batch := []
          records_sent_count := st.records_sent_count + (r :: rs).length } := by
      simp [runBatching, ← hst, flushRemaining, hrb]
    rw [hrun, hK]
    refine ⟨?_, ?_, ?_, ?_⟩
    · simp only [List.length_append, List.length_singleton]
      omega
    · intro b hb
      rcases List.mem_append.mp hb with hb | hb
      · exact le_of_eq (hall b hb)
      · simp only [List.mem_singleton] at hb
        subst hb
        simp only [List.length_cons]
        omega
    · simp [List.flatten_append, hjoin]
    · simp only [List.length_cons]
      omega

/-! ## Model of `json.dumps` / `json.loads` on string-valued objects

`lambda_function.py` serialises `record_data` (a dict of strings) with
`json.dumps` (line 60) and the response body with `json.dumps` of a string
(line 79).  We model the encoder at the character level: `"`, `\` and the
named control characters are escaped as in Python's JSON encoder, other
control characters become `\u00XX`, and all remaining characters are
emitted literally (Python additionally `\uXXXX`-escapes non-ASCII
characters by default; `json.loads` decodes either form to the same
character, so the round-trip is unaffected).  The decoder is a recursive
descent parser for JSON objects whose values are strings, rejecting raw
control characters inside strings and skipping surrounding whitespace as
`json.loads` does. -/

/-- Lower-case hexadecimal digit, as emitted by Python's `\uXXXX` escapes. -/
def hexDigitChar (n : Nat) : Char :=
  if n < 10 then Char.ofNat (48 + n) else Char.ofNat (87 + n)

/-- Value of a hexadecimal digit character. -/
def hexVal (c : Char) : Option Nat :=
  let n := c.toNat
  if 48 ≤ n ∧ n ≤ 57 then some (n - 48)
  else if 97 ≤ n ∧ n ≤ 102 then some (n - 87)
  else if 65 ≤ n ∧ n ≤ 70 then some (n - 55)
  else none

/-- JSON escape of a single character, following Python's encoder table:
`\"`, `\\`, `\b`, `\t`, `\n`, `\f`, `\r`, `\u00XX` for the remaining
control characters, everything else literal. -/
def escChar (c : Char) : List Char :=
  if c = '"' then ['\\', '"']
  else if c = '\\' then ['\\', '\\']
  else if c = '\x08' then ['\\', 'b']
  else if c = '\x09' then ['\\', 't']
  else if c = '\x0a' then ['\\', 'n']
  else if c = '\x0c' then ['\\', 'f']
  else if c = '\x0d' then ['\\', 'r']
  else if c.toNat < 32 then
    ['\\', 'u', '0', '0', hexDigitChar (c.toNat / 16), hexDigitChar (c.toNat % 16)]
  else [c]

/-- Characters of a JSON string literal: quote, escaped body, quote. -/
def encStr (s : String) : List Char :=
  '"' :: (s.data.map escChar).flatten ++ ['"']

/-- Characters of one `"key": "value"` member (Python's default
key separator is `": "`). -/
def encPair (p : String × String) : List Char :=
  encStr p.1 ++ ':' :: ' ' :: encStr p.2

/-- Members of an object, separated by `", "` (Python's default item
separator). -/
def encMembers : List (String × String) → List Char
  | [] => []
  | [p] => encPair p
  | p :: ps => encPair p ++ ',' :: ' ' :: encMembers ps

/-- Model of `json.dumps` applied to a string-valued dict. -/
def jsonDumpsObj (ps : List (String × String)) : String :=
  ⟨'{' :: encMembers ps ++ ['}']⟩

/-- Model of `json.dumps` applied to a Python `str` (used for the response
body at lambda_function.py line 79). -/
def jsonDumpsString (s : String) : String :=
  ⟨encStr s⟩

/-- JSON whitespace. -/
def isJsonWs (c : Char) : Bool :=
  c == ' ' || c == '\t' || c == '\n' || c == '\r'

/-- Skip leading JSON whitespace. -/
def skipWs : List Char → List Char
  | [] => []
  | c :: rest => if isJsonWs c then skipWs rest else c :: rest

/-- Parse the body of a JSON string literal (the opening quote already
consumed), returning the decoded characters and the input after the
closing quote.  Raw control characters are rejected, as by `json.loads`. -/
def pStrBody : List Char → Option (List Char × List Char)
  | [] => none
  | c :: rest =>
    if c = '"' then some ([], rest)
    else if c = '\\' then
      match rest with
      | [] => none
      | e :: rest2 =>
        if e = '"' then (fun p => ('"' :: p.1, p.2)) <$> pStrBody rest2
        else if e = '\\' then (fun p => ('\\' :: p.1, p.2)) <$> pStrBody rest2
        else if e = '/' then (fun p => ('/' :: p.1, p.2)) <$> pStrBody rest2
        else if e = 'b' then (fun p => ('\x08' :: p.1, p.2)) <$> pStrBody rest2
        else if e = 'f' then (fun p => ('\x0c' :: p.1, p.2)) <$> pStrBody rest2
        else if e = 'n' then (fun p => ('\x0a' :: p.1, p.2)) <$> pStrBody rest2
        else if e = 'r' then (fun p => ('\x0d' :: p.1, p.2)) <$> pStrBody rest2
        else if e = 't' then (fun p => ('\x09' :: p.1, p.2)) <$> pStrBody rest2
        else if e = 'u' then
          match rest2 with
          | h1 :: h2 :: h3 :: h4 :: rest3 =>
            match hexVal h1, hexVal h2, hexVal h3, hexVal h4 with
            | some a, some b, some c2, some d =>
              (fun p => (Char.ofNat (((a * 16 + b) * 16 + c2) * 16 + d) :: p.1, p.2)) <$>
                pStrBody rest3
            | _, _, _, _ => none
          | _ => none
        else none
    else if c.toNat < 32 then none
    else (fun p => (c :: p.1, p.2)) <$> pStrBody rest

/-- Parse a JSON string literal starting at the opening quote. -/
def pString : List Char → Option (String × List Char)
  | [] => none
  | c :: rest =>
    if c = '"' then (fun p => (⟨p.1⟩, p.2)) <$> pStrBody rest
    else none

/-- Parse the members of a nonempty object, positioned at the opening
quote of the first key; consumes the closing `}`. -/
def pMembers (fuel : Nat) (l : List Char) : Option (List (String × String) × List Char) :=
  match fuel with
  | 0 => none
  | fuel + 1 =>
    match pString l with
    | none => none
    | some (k, r1) =>
      match skipWs r1 with
      | [] => none
      | c :: r2 =>
        if c = ':' then
          match pString (skipWs r2) with
          | none => none
          | some (v, r3) =>
            match skipWs r3 with
            | [] => none
            | c2 :: r4 =>
              if c2 = ',' then
                (fun p => ((k, v) :: p.1, p.2)) <$> pMembers fuel (skipWs r4)
              else if c2 = '}' then some ([(k, v)], r4)
              else none
        else none

/-- Parse a JSON object of string values. -/
def pObj (l : List Char) : Option (List (String × String) × List Char) :=
  match skipWs l with
  | [] => none
  | c :: rest =>
    if c = '{' then
      match skipWs rest with
      | [] => none
      | c2 :: rest2 =>
        if c2 = '}' then some ([], rest2)
        else pMembers (c2 :: rest2).length (c2 :: rest2)
    else none

/-- Model of `json.loads` restricted to objects of string values: parse an
object and require only whitespace after it. -/
def jsonLoadsObj (s : String) : Option (List (String × String)) :=
  match pObj s.data with
  | some (ps, rest) => if skipWs rest = [] then some ps else none
  | none => none

/-! ### Round-trip of the JSON codec -/

theorem hexVal_hexDigitChar : ∀ n < 16, hexVal (hexDigitChar n) = some n := by
  decide

theorem skipWs_cons_of_not_ws {c : Char} (h : isJsonWs c = false) (l : List Char) :
    skipWs (c :: l) = c :: l := by
  simp [skipWs, h]

theorem pStrBody_escape (s : List Char) :
    ∀ rest, pStrBody ((s.map escChar).flatten ++ '"' :: rest) = some (s, rest) := by
  induction s with
  | nil => intro rest; unfold pStrBody; simp
  | cons c s ih =>
    intro rest
    simp only [List.map_cons, List.flatten_cons, List.append_assoc]
    by_cases h1 : c = '"'
    · subst h1; unfold pStrBody; simp [escChar, ih]
    · by_cases h2 : c = '\\'
      · subst h2; unfold pStrBody; simp [escChar, ih]
      · by_cases h3 : c = '\x08'
        · subst h3; unfold pStrBody; simp [escChar, ih]
        · by_cases h4 : c = '\x09'
          · subst h4; unfold pStrBody; simp [escChar, ih]
          · by_cases h5 : c = '\x0a'
            · subst h5; unfold pStrBody; simp [escChar, ih]
            · by_cases h6 : c = '\x0c'
              · subst h6; unfold pStrBody; simp [escChar, ih]
              · by_cases h7 : c = '\x0d'
                · subst h7; unfold pStrBody; simp [escChar, ih]
                · by_cases h8 : c.toNat < 32
                  · have hd : hexVal (hexDigitChar (c.toNat / 16)) = some (c.toNat / 16) :=
                      hexVal_hexDigitChar _ (by omega)
                    have hm : hexVal (hexDigitChar (c.toNat % 16)) = some (c.toNat % 16) :=
                      hexVal_hexDigitChar _ (by omega)
                    have hchar :
                        Char.ofNat (c.toNat / 16 * 16 + c.toNat % 16) = c := by
                      rw [show c.toNat / 16 * 16 + c.toNat % 16 = c.toNat from by omega,
                        Char.ofNat_toNat]
                    have h0 : hexVal '0' = some 0 := rfl
                    unfold pStrBody
                    simp [escChar, h1, h2, h3, h4, h5, h6, h7, h8, h0,
                      hd, hm, hchar, ih]
                  · unfold pStrBody
                    simp [escChar, h1, h2, h3, h4, h5, h6, h7, h8, ih]

theorem pString_enc (s : String) (rest : List Char) :
    pString (encStr s ++ rest) = some (s, rest) := by
  simp [encStr, pString, pStrBody_escape]

theorem encMembers_head (k v : String) (ps : List (String × String)) :
    ∃ t, encMembers ((k, v) :: ps) = '"' :: t := by
  cases ps with
  | nil =>
    exact ⟨(k.data.map escChar).flatten ++
      '"' :: ':' :: ' ' :: '"' :: ((v.data.map escChar).flatten ++ ['"']),
      by simp [encMembers, encPair, encStr]⟩
  | cons q qs =>
    exact ⟨(k.data.map escChar).flatten ++
      '"' :: ':' :: ' ' :: '"' ::
        ((v.data.map escChar).flatten ++ '"' :: ',' :: ' ' :: encMembers (q :: qs)),
      by simp [encMembers, encPair, encStr]⟩

theorem skipWs_encMembers_cons (p : String × String) (ps : List (String × String))
    (rest : List Char) :
    skipWs (encMembers (p :: ps) ++ rest) = encMembers (p :: ps) ++ rest := by
  obtain ⟨k, v⟩ := p
  obtain ⟨t, ht⟩ := encMembers_head k v ps
  rw [ht, List.cons_append]
  exact skipWs_cons_of_not_ws (by decide) _

theorem encPair_length_pos (p : String × String) : 1 ≤ (encPair p).length := by
  simp [encPair, encStr]

theorem encMembers_length : ∀ ps : List (String × String),
    ps.length ≤ (encMembers ps).length := by
  intro ps
  induction ps with
  | nil => simp [encMembers]
  | cons p ps ih =>
    cases ps with
    | nil =>
      have := encPair_length_pos p
      simpa [encMembers] using this
    | cons q qs =>
      have h1 := encPair_length_pos p
      simp only [encMembers, List.length_append, List.length_cons] at ih ⊢
      omega

theorem pMembers_enc :
    ∀ (ps : List (String × String)) (fuel : Nat) (k v : String) (rest : List Char),
      ps.length < fuel →
      pMembers fuel (encMembers ((k, v) :: ps) ++ '}' :: rest) = some ((k, v) :: ps, rest) := by
  intro ps
  induction ps with
  | nil =>
    intro fuel k v rest hf
    cases fuel with
    | zero => exact (Nat.not_lt_zero _ hf).elim
    | succ fuel =>
      simp only [encMembers, encPair, List.append_assoc, List.cons_append]
      simp [pMembers, pString_enc, pString, encStr, pStrBody_escape, skipWs, isJsonWs,
        List.append_assoc]
  | cons p ps ih =>
    intro fuel k v rest hf
    obtain ⟨k2, v2⟩ := p
    cases fuel with
    | zero => exact (Nat.not_lt_zero _ hf).elim
    | succ fuel =>
      have hf2 : ps.length < fuel := by
        simp only [List.length_cons] at hf
        omega
      simp only [encMembers, encPair, List.append_assoc, List.cons_append]
      simp [pMembers, pString, encStr, List.cons_append, List.append_assoc,
        pStrBody_escape, skipWs, isJsonWs, skipWs_encMembers_cons,
        ih fuel k2 v2 rest hf2]

theorem pObj_enc (ps : List (String × String)) (rest : List Char) :
    pObj ((jsonDumpsObj ps).data ++ rest) = some (ps, rest) := by
  cases ps with
  | nil =>
    show pObj (('{' :: encMembers [] ++ ['}']) ++ rest) = some ([], rest)
    simp [pObj, encMembers, skipWs, isJsonWs]
  | cons p ps2 =>
    obtain ⟨k, v⟩ := p
    obtain ⟨t, ht⟩ := encMembers_head k v ps2
    show pObj (('{' :: encMembers ((k, v) :: ps2) ++ ['}']) ++ rest) = _
    have hmem : encMembers ((k, v) :: ps2) ++ '}' :: rest = '"' :: (t ++ '}' :: rest) := by
      rw [ht]; simp
    have hflt : ps2.length < (t ++ '}' :: rest).length + 1 := by
      have h1 := encMembers_length ((k, v) :: ps2)
      rw [ht] at h1
      simp only [List.length_cons, List.length_append] at h1 ⊢
      omega
    simp only [List.cons_append, List.append_assoc, List.singleton_append]
    unfold pObj
    rw [skipWs_cons_of_not_ws (by decide : isJsonWs '{' = false)]
    simp [skipWs, isJsonWs]
    rw [skipWs_encMembers_cons, hmem]
    simp
    rw [← hmem]
    rw [pMembers_enc ps2 _ k v rest (by simpa using hflt)]

/-- Round-trip of the modelled JSON codec: decoding the serialised object
followed by the trailing newline recovers the original association list. -/
theorem jsonLoadsObj_dumps_newline (ps : List (String × String)) :
    jsonLoadsObj (jsonDumpsObj ps ++ "\n") = some ps := by
  unfold jsonLoadsObj
  rw [String.data_append]
  have hnl : ("\n" : String).data = ['\n'] := rfl
  rw [hnl, pObj_enc]
  simp [skipWs, isJsonWs]

/-! ## The CSV-to-Stream Forwarder handler (lambda_function.py lines 17–99)

External effects are modelled as oracle parameters and returned traces:
`fetch` stands for `s3.get_object` composed with the UTF-8 decode,
`splitlines` and `csv.reader` of lines 37–40, returning either the parsed
lines (header and data rows) or the failure any of those steps raises;
`put` stands for `kinesis.put_records`; `uuids i` stands for the value of
`str(uuid.uuid4())` generated for the `i`-th data row.  The run records
the object-store fetches and streaming batch calls the handler issues. -/

/-- ASCII fragment of `urllib.parse.unquote_plus` (lambda_function.py
line 28): `+` becomes a space, `%XX` with two hex digits becomes the
character with that code, everything else is passed through. -/
def unquote_plus_chars : List Char → List Char
  | [] => []
  | '+' :: rest => ' ' :: unquote_plus_chars rest
  | '%' :: h1 :: h2 :: rest =>
    match hexVal h1, hexVal h2 with
    | some a, some b => Char.ofNat (a * 16 + b) :: unquote_plus_chars rest
    | _, _ => '%' :: unquote_plus_chars (h1 :: h2 :: rest)
  | c :: rest => c :: unquote_plus_chars rest

def unquote_plus (s : String) : String :=
  ⟨unquote_plus_chars s.data⟩

/-- One entry of `event['Records']`.  A missing `s3`, `bucket`, `name`,
`object` or `key` field (each a `KeyError` in the source) is modelled by
the corresponding component being `none`. -/
structure EventRecord where
  bucket_name : Option String
  object_key : Option String
  deriving DecidableEq, Repr

/-- The trigger event: `records = none` models an event without a
`Records` key. -/
structure S3Event where
  records : Option (List EventRecord)
  deriving DecidableEq, Repr

/-- Step 1 of the handler (lambda_function.py lines 24–31): extract
`event['Records'][0]['s3']['bucket']['name']` and the URL-decoded object
key; any `KeyError`/`IndexError` yields `none`. -/
def extractBucketKey (e : S3Event) : Option (String × String) :=
  match e.records with
  | none => none
  | some [] => none
  | some (r :: _) =>
    match r.bucket_name, r.object_key with
    | some b, some k => some (b, unquote_plus k)
    | _, _ => none

/-- Outcome of a `kinesis.put_records` call: the call can raise, or return
a response with `FailedRecordCount` and per-record error detail
(`some (errorCode, errorMessage)` for a failed record). -/
inductive PutRecordsOutcome where
  | raised (msg : String)
  | response (failedRecordCount : Nat) (records : List (Option (String × String)))
  deriving Repr

/-- Whether a batch call failed: the call raised or reported failed
entries. -/
def sendFails : PutRecordsOutcome → Bool
  | .raised _ => true
  | .response n _ => 0 < n

/-- `_send_batch_to_kinesis` (lambda_function.py lines 83–99): issue the
call and produce the log lines; every exception is caught, so the helper
returns to the caller unconditionally and only the logs depend on the
outcome. -/
def sendBatchToKinesis (put : List KinesisRecord → PutRecordsOutcome)
    (batch : List KinesisRecord) : List String :=
  match put batch with
  | .raised msg => ["Error sending batch to Kinesis: " ++ msg]
  | .response failed recs =>
    if 0 < failed then
      ("Warning: " ++ toString failed ++ " records failed to be sent.") ::
        recs.filterMap (fun r =>
          r.map (fun p => "  - Failed Record: " ++ p.1 ++ ": " ++ p.2))
    else
      ["Successfully sent a batch of " ++ toString batch.length ++ " records."]

/-- The Kinesis record built for a data row (lambda_function.py
lines 59–62): the JSON-serialised header-zipped row with a trailing
newline, and the partition key. -/
def mkKinesisRecord (header row : List String) (pk : String) : KinesisRecord :=
  { data := jsonDumpsObj (recordData header row) ++ "\n"
    partitionKey := pk }

structure HandlerResponse where
  statusCode : Nat
  body : String
  deriving DecidableEq, Repr

/-- A full run of the handler: the returned response plus the traces of
the external calls it issued. -/
structure ForwarderRun where
  response : HandlerResponse
  fetchCalls : List (String × String)
  kinesisCalls : List (List KinesisRecord)
  logs : List String
  deriving Repr

/-- `lambda_handler` (lambda_function.py lines 17–80).  The handler never
raises: every path returns a response.  An `ok []` fetch result models an
object with no lines at all, where `next(csv_reader)` raises
`StopIteration`, caught by the `except Exception` of line 43. -/
def lambda_handler
    (fetch : String → String → Except String (List (List String)))
    (put : List KinesisRecord → PutRecordsOutcome)
    (uuids : Nat → String)
    (event : S3Event) : ForwarderRun :=
  match extractBucketKey event with
  | none =>
    { response := { statusCode := 400, body := "Invalid S3 event format." }
      fetchCalls := [], kinesisCalls := [], logs := [] }
  | some (bucket, key) =>
    match fetch bucket key with
    | .error _ =>
      { response := { statusCode := 500, body := "Failed to process S3 object." }
        fetchCalls := [(bucket, key)], kinesisCalls := [], logs := [] }
    | .ok [] =>
      { response := { statusCode := 500, body := "Failed to process S3 object." }
        fetchCalls := [(bucket, key)], kinesisCalls := [], logs := [] }
    | .ok (header :: rows) =>
      let krs := rows.mapIdx (fun i row => mkKinesisRecord header row (uuids i))
      let st := runBatching krs
      { response :=
          { statusCode := 200,
            body := jsonDumpsString
              ("Successfully sent " ++ toString st.records_sent_count ++ " records.") },
        fetchCalls := [(bucket, key)],
        kinesisCalls := st.batches,
        logs := (st.batches.map (sendBatchToKinesis put)).flatten }

/-! ## The Table Projection Job (emr_script_1.py)

The Spark session and Glue catalog are modelled by a `catalog` oracle
mapping qualified table names to data frames.  A data frame is its schema
(column names) and rows. -/

structure DataFrame where
  schema : List String
  rows : List (List String)
  deriving DecidableEq, Repr

/-- Projection of one row onto the requested columns, positionally via the
source schema. -/
def projectRow (schema cols : List String) (row : List String) : List String :=
  cols.map (fun c => row.getD (schema.indexOf c) "")

/-- `df.select([col(c) for c in columns_to_select])` (emr_script_1.py
line 39): resolving an absent column raises an analysis error; otherwise
the result has exactly the requested columns in the requested order. -/
def select (df : DataFrame) (cols : List String) : Except String DataFrame :=
  if cols.all (fun c => df.schema.contains c) then
    .ok { schema := cols, rows := df.rows.map (projectRow df.schema cols) }
  else
    .error "cannot resolve column"

/-- The table write performed on success: destination name, save mode and
the data frame written. -/
structure WriteAction where
  table : String
  mode : String
  df : DataFrame
  deriving DecidableEq, Repr

/-- `process_glue_data` body (emr_script_1.py lines 15–54) up to its
exception handler: read the source table, select the columns, write the
result with `mode("overwrite").saveAsTable`. -/
def process_glue_data (catalog : String → Option DataFrame)
    (input_db input_table output_db output_table : String)
    (columns_to_select : List String) : Except String WriteAction :=
  let source_table_name := input_db ++ "." ++ input_table
  let destination_table_name := output_db ++ "." ++ output_table
  match catalog source_table_name with
  | none => .error ("Table or view not found: " ++ source_table_name)
  | some df =>
    match select df columns_to_select with
    | .error e => .error e
    | .ok transformed_df =>
      .ok { table := destination_table_name, mode := "overwrite", df := transformed_df }

/-- Result of running the script as a process: its exit status, the write
it performed (if any) and the usage/error messages it printed. -/
structure JobRun where
  exitCode : Int
  write : Option WriteAction
  logs : List String
  deriving Repr

/-- Python whitespace, as stripped by `str.strip()` (ASCII fragment). -/
def isPySpace (c : Char) : Bool :=
  c == ' ' || c == '\t' || c == '\n' || c == '\r' || c == '\x0b' || c == '\x0c'

/-- Python `str.strip()`: drop leading and trailing whitespace. -/
def pyStrip (s : String) : String :=
  ⟨(((s.data.dropWhile isPySpace).reverse.dropWhile isPySpace).reverse)⟩

/-- Python `str.split(',')` on the character list: splitting on every
comma, keeping empty fields (`"".split(',') == ['']`). -/
def splitOnComma : List Char → List (List Char)
  | [] => [[]]
  | c :: rest =>
    if c = ',' then [] :: splitOnComma rest
    else
      match splitOnComma rest with
      | [] => [[c]]
      | t :: ts => (c :: t) :: ts

/-- `[c.strip() for c in columns_str.split(',')]` (emr_script_1.py
line 72). -/
def parseColumns (columns_str : String) : List String :=
  (splitOnComma columns_str.data).map (fun l => pyStrip ⟨l⟩)

/-- The `__main__` block (emr_script_1.py lines 61–75): with exactly six
`sys.argv` entries (the script name plus five positional arguments) run
the pipeline, exiting 0 on success and 1 on any failure (lines 56–58);
otherwise print the usage message and exit -1. -/
def emr_main (catalog : String → Option DataFrame) (argv : List String) : JobRun :=
  match argv with
  | [_, input_database, input_table_name, output_database, output_table_name, columns_str] =>
    let columns_to_keep := parseColumns columns_str
    match process_glue_data catalog input_database input_table_name output_database
        output_table_name columns_to_keep with
    | .ok w => { exitCode := 0, write := some w, logs := [] }
    | .error e => { exitCode := 1, write := none, logs := ["An error occurred: " ++ e] }
  | _ =>
    { exitCode := -1, write := none
      logs := ["Usage: spark-submit process_glue_data.py <input_db> <input_table> <output_db> <output_table> <columns>"] }

/-! ## Concrete example inputs used by the witnesses -/

def fetchEx : String → String → Except String (List (List String)) :=
  fun _ _ => .ok [["id", "name", "value"], ["1", "a", "10"], ["2", "b", "20"]]

def fetchErrEx : String → String → Except String (List (List String)) :=
  fun _ _ => .error "NoSuchKey"

def eventEx : S3Event :=
  ⟨some [⟨some "my-bucket", some "data.csv"⟩]⟩

def eventNoRecordsEx : S3Event := ⟨none⟩

def uuidsEx : Nat → String := fun i => "uuid-" ++ toString i

def putOkEx : List KinesisRecord → PutRecordsOutcome :=
  fun _ => .response 0 []

def putRaiseEx : List KinesisRecord → PutRecordsOutcome :=
  fun _ => .raised "ProvisionedThroughputExceededException"

def catalogEx : String → Option DataFrame :=
  fun n =>
    if n = "indb.intable" then
      some ⟨["x", "y", "z"], [["1", "2", "3"], ["4", "5", "6"]]⟩
    else none

/-! ## Claims -/

/-- C1: for every CSV input of `N` data rows following a header row, the
handler issues exactly `⌈N/500⌉` streaming batch calls, each call carrying
at most 500 records, and the returned response reports a record count
equal to `N`. -/
theorem forwarder_batch_counts
    (fetch : String → String → Except String (List (List String)))
    (put : List KinesisRecord → PutRecordsOutcome)
    (uuids : Nat → String) (event : S3Event) (bucket key : String)
    (header : List String) (rows : List (List String))
    (hex : extractBucketKey event = some (bucket, key))
    (hfetch : fetch bucket key = .ok (header :: rows)) :
    (lambda_handler fetch put uuids event).kinesisCalls.length
        = (rows.length + 499) / 500 ∧
    (∀ b ∈ (lambda_handler fetch put uuids event).kinesisCalls, b.length ≤ 500) ∧
    (lambda_handler fetch put uuids event).response
        = { statusCode := 200,
            body := jsonDumpsString
              ("Successfully sent " ++ toString rows.length ++ " records.") } := by
  obtain ⟨h1, h2, h3, h4⟩ :=
    runBatching_spec (rows.mapIdx fun i row => mkKinesisRecord header row (uuids i))
  have hK : KINESIS_BATCH_SIZE = 500 := rfl
  have hlen : (rows.mapIdx fun i row => mkKinesisRecord header row (uuids i)).length
      = rows.length := by simp
  simp only [lambda_handler, hex, hfetch]
  refine ⟨?_, ?_, ?_⟩
  · rw [h1, hlen, hK]
  · intro b hb
    exact hK ▸ h2 b hb
  · rw [h4, hlen]

theorem forwarder_batch_counts_witness :
    (lambda_handler fetchEx putOkEx uuidsEx eventEx).kinesisCalls.length
        = (([["1", "a", "10"], ["2", "b", "20"]] : List (List String)).length + 499) / 500 ∧
    (∀ b ∈ (lambda_handler fetchEx putOkEx uuidsEx eventEx).kinesisCalls, b.length ≤ 500) ∧
    (lambda_handler fetchEx putOkEx uuidsEx eventEx).response
        = { statusCode := 200,
            body := jsonDumpsString
              ("Successfully sent "
                ++ toString ([["1", "a", "10"], ["2", "b", "20"]] : List (List String)).length
                ++ " records.") } :=
  forwarder_batch_counts fetchEx putOkEx uuidsEx eventEx "my-bucket" "data.csv"
    ["id", "name", "value"] [["1", "a", "10"], ["2", "b", "20"]] (by decide) rfl

/-- C2: when one or more streaming batch calls fail (raise or report
failed entries), processing continues through all batches, every record is
attempted exactly once (never retried), the handler still returns a
200-status response reporting all `N` rows, and the response and the batch
calls issued are independent of the send outcomes. -/
theorem forwarder_send_failures_nonfatal
    (fetch : String → String → Except String (List (List String)))
    (put put2 : List KinesisRecord → PutRecordsOutcome)
    (uuids : Nat → String) (event : S3Event) (bucket key : String)
    (header : List String) (rows : List (List String))
    (hex : extractBucketKey event = some (bucket, key))
    (hfetch : fetch bucket key = .ok (header :: rows))
    (_hfail : ∃ b ∈ (lambda_handler fetch put uuids event).kinesisCalls,
      sendFails (put b) = true) :
    (lambda_handler fetch put uuids event).kinesisCalls.flatten
        = rows.mapIdx (fun i row => mkKinesisRecord header row (uuids i)) ∧
    (lambda_handler fetch put uuids event).response
        = { statusCode := 200,
            body := jsonDumpsString
              ("Successfully sent " ++ toString rows.length ++ " records.") } ∧
    (lambda_handler fetch put2 uuids event).response
        = (lambda_handler fetch put uuids event).response ∧
    (lambda_handler fetch put2 uuids event).kinesisCalls
        = (lambda_handler fetch put uuids event).kinesisCalls := by
  obtain ⟨h1, h2, h3, h4⟩ :=
    runBatching_spec (rows.mapIdx fun i row => mkKinesisRecord header row (uuids i))
  have hlen : (rows.mapIdx fun i row => mkKinesisRecord header row (uuids i)).length
      = rows.length := by simp
  simp only [lambda_handler, hex, hfetch]
  exact ⟨h3, by rw [h4, hlen], by trivial, by trivial⟩

theorem forwarder_send_failures_nonfatal_witness :
    (lambda_handler fetchEx putRaiseEx uuidsEx eventEx).kinesisCalls.flatten
        = ([["1", "a", "10"], ["2", "b", "20"]] : List (List String)).mapIdx
            (fun i row => mkKinesisRecord ["id", "name", "value"] row (uuidsEx i)) ∧
    (lambda_handler fetchEx putRaiseEx uuidsEx eventEx).response
        = { statusCode := 200,
            body := jsonDumpsString
              ("Successfully sent "
                ++ toString ([["1", "a", "10"], ["2", "b", "20"]] : List (List String)).length
                ++ " records.") } ∧
    (lambda_handler fetchEx putOkEx uuidsEx eventEx).response
        = (lambda_handler fetchEx putRaiseEx uuidsEx eventEx).response ∧
    (lambda_handler fetchEx putOkEx uuidsEx eventEx).kinesisCalls
        = (lambda_handler fetchEx putRaiseEx uuidsEx eventEx).kinesisCalls :=
  forwarder_send_failures_nonfatal fetchEx putRaiseEx putOkEx uuidsEx eventEx
    "my-bucket" "data.csv" ["id", "name", "value"] [["1", "a", "10"], ["2", "b", "20"]]
    (by decide) rfl (by decide)

/-! ### Lemmas about positional zipping for C3 -/

theorem zip_take_right : ∀ (l1 l2 : List String), l1.zip l2 = l1.zip (l2.take l1.length) := by
  intro l1
  induction l1 with
  | nil => intro l2; simp
  | cons a l1 ih =>
    intro l2
    cases l2 with
    | nil => simp
    | cons b l2 => simp [ih l2]

theorem zip_take_left : ∀ (l1 l2 : List String), l1.zip l2 = (l1.take l2.length).zip l2 := by
  intro l1
  induction l1 with
  | nil => intro l2; simp
  | cons a l1 ih =>
    intro l2
    cases l2 with
    | nil => simp
    | cons b l2 => simp [ih l2]

theorem map_fst_zip_of_le :
    ∀ (l1 l2 : List String), l2.length ≤ l1.length →
      (l1.zip l2).map Prod.fst = l1.take l2.length := by
  intro l1
  induction l1 with
  | nil =>
    intro l2 h
    have : l2 = [] := List.eq_nil_of_length_eq_zero (by simpa using h)
    simp [this]
  | cons a l1 ih =>
    intro l2 h
    cases l2 with
    | nil => simp
    | cons b l2 =>
      simp only [List.length_cons, Nat.add_le_add_iff_right] at h
      simp [ih l2 h]

theorem map_fst_dictInsert (d : List (String × String)) (k v : String) :
    (dictInsert d k v).map Prod.fst =
      if (d.map Prod.fst).contains k then d.map Prod.fst else d.map Prod.fst ++ [k] := by
  unfold dictInsert
  by_cases h : (d.map Prod.fst).contains k
  · rw [if_pos h, if_pos h, List.map_map]
    apply List.map_congr_left
    intro p _
    by_cases hp : p.1 = k <;> simp [hp]
  · rw [if_neg h, if_neg h]
    simp

theorem mem_map_fst_pythonDict_aux :
    ∀ (ps d : List (String × String)) (x : String),
      x ∈ (ps.foldl (fun d p => dictInsert d p.1 p.2) d).map Prod.fst →
      x ∈ d.map Prod.fst ∨ x ∈ ps.map Prod.fst := by
  intro ps
  induction ps with
  | nil => intro d x h; exact Or.inl h
  | cons p ps ih =>
    intro d x h
    simp only [List.foldl_cons] at h
    rcases ih (dictInsert d p.1 p.2) x h with h2 | h2
    · rw [map_fst_dictInsert] at h2
      by_cases hc : (d.map Prod.fst).contains p.1
      · rw [if_pos hc] at h2
        exact Or.inl h2
      · rw [if_neg hc] at h2
        rcases List.mem_append.mp h2 with h3 | h3
        · exact Or.inl h3
        · simp only [List.mem_singleton] at h3
          subst h3
          right
          simp
    · right
      simp [h2]

theorem lookup_eq_none_of_not_mem_fst :
    ∀ (d : List (String × String)) (f : String),
      f ∉ d.map Prod.fst → d.lookup f = none := by
  intro d
  induction d with
  | nil => intro f _; rfl
  | cons p d ih =>
    intro f h
    obtain ⟨k, v⟩ := p
    simp only [List.map_cons, List.mem_cons, not_or] at h
    obtain ⟨h1, h2⟩ := h
    have hbeq : (f == k) = false := beq_eq_false_iff_ne.mpr h1
    simp [List.lookup, hbeq, ih f h2]

/-- C3: the Forwarder builds each record by positionally zipping header
fields with row values: a row longer than the header yields the same
record as its truncation to the header length (extra trailing values
silently dropped), and a row shorter than the header yields the record of
the truncated header, in which the trailing header fields are absent. -/
theorem forwarder_zip_truncation (header row : List String) :
    (header.length ≤ row.length →
      recordData header row = recordData header (row.take header.length)) ∧
    (row.length ≤ header.length →
      recordData header row = recordData (header.take row.length) row ∧
      ∀ f ∈ header.drop row.length, f ∉ header.take row.length →
        (recordData header row).lookup f = none) := by
  constructor
  · intro _
    unfold recordData
    rw [← zip_take_right]
  · intro h
    constructor
    · unfold recordData
      rw [← zip_take_left]
    · intro f _ hnf
      apply lookup_eq_none_of_not_mem_fst
      intro hmem
      unfold recordData pythonDict at hmem
      rcases mem_map_fst_pythonDict_aux _ [] f hmem with h2 | h2
      · simp at h2
      · rw [map_fst_zip_of_le header row h] at h2
        exact hnf h2

theorem forwarder_zip_truncation_witness :
    recordData ["a", "b"] ["1", "2", "3"]
      = recordData ["a", "b"] (["1", "2", "3"].take 2) ∧
    recordData ["a", "b", "c"] ["1"]
      = recordData (["a", "b", "c"].take 1) ["1"] ∧
    (recordData ["a", "b", "c"] ["1"]).lookup "c" = none :=
  ⟨(forwarder_zip_truncation ["a", "b"] ["1", "2", "3"]).1 (by decide),
   ((forwarder_zip_truncation ["a", "b", "c"] ["1"]).2 (by decide)).1,
   ((forwarder_zip_truncation ["a", "b", "c"] ["1"]).2 (by decide)).2 "c"
     (by decide) (by decide)⟩

/-- C4: for every data row whose length equals the header length,
JSON-decoding the payload of the Streaming Record generated from that row
yields a mapping equal to the mapping obtained by zipping the header with
the row. -/
theorem forwarder_payload_roundtrip (header row : List String) (pk : String)
    (_hlen : row.length = header.length) :
    jsonLoadsObj (mkKinesisRecord header row pk).data = some (recordData header row) := by
  unfold mkKinesisRecord
  exact jsonLoadsObj_dumps_newline _

theorem forwarder_payload_roundtrip_witness :
    (["1", "a", "10"] : List String).length = (["id", "name", "value"] : List String).length ∧
    jsonLoadsObj (mkKinesisRecord ["id", "name", "value"] ["1", "a", "10"] "pk0").data
      = some (recordData ["id", "name", "value"] ["1", "a", "10"]) :=
  ⟨by decide,
   forwarder_payload_roundtrip ["id", "name", "value"] ["1", "a", "10"] "pk0" (by decide)⟩

/-- C5: for every trigger event from which the bucket name or object key
cannot be extracted (missing records list, empty records list, or missing
bucket/key field), the Forwarder returns a 400 client-error response,
does not raise (the handler is a total function), and performs no
object-store fetch. -/
theorem forwarder_bad_event_shape
    (fetch : String → String → Except String (List (List String)))
    (put : List KinesisRecord → PutRecordsOutcome)
    (uuids : Nat → String) (event : S3Event)
    (hbad : event.records = none ∨ event.records = some [] ∨
      ∃ r rs, event.records = some (r :: rs) ∧
        (r.bucket_name = none ∨ r.object_key = none)) :
    (lambda_handler fetch put uuids event).response
        = { statusCode := 400, body := "Invalid S3 event format." } ∧
    (lambda_handler fetch put uuids event).fetchCalls = [] ∧
    (lambda_handler fetch put uuids event).kinesisCalls = [] := by
  have hex : extractBucketKey event = none := by
    rcases hbad with h | h | ⟨r, rs, h, hr⟩
    · simp [extractBucketKey, h]
    · simp [extractBucketKey, h]
    · rcases hr with hr | hr
      · simp [extractBucketKey, h, hr]
      · rcases hb : r.bucket_name with _ | b
        · simp [extractBucketKey, h, hb]
        · simp [extractBucketKey, h, hb, hr]
  simp [lambda_handler, hex]

theorem forwarder_bad_event_shape_witness :
    (lambda_handler fetchEx putOkEx uuidsEx eventNoRecordsEx).response
        = { statusCode := 400, body := "Invalid S3 event format." } ∧
    (lambda_handler fetchEx putOkEx uuidsEx eventNoRecordsEx).fetchCalls = [] ∧
    (lambda_handler fetchEx putOkEx uuidsEx eventNoRecordsEx).kinesisCalls = [] :=
  forwarder_bad_event_shape fetchEx putOkEx uuidsEx eventNoRecordsEx (Or.inl rfl)

/-- C6: for every invocation with a valid event shape where fetching,
decoding or reading the header row fails (including an object with no
lines at all), the Forwarder returns a 500 server-error response rather
than raising. -/
theorem forwarder_fetch_failure
    (fetch : String → String → Except String (List (List String)))
    (put : List KinesisRecord → PutRecordsOutcome)
    (uuids : Nat → String) (event : S3Event) (bucket key : String)
    (hex : extractBucketKey event = some (bucket, key))
    (hfail : (∃ e, fetch bucket key = .error e) ∨ fetch bucket key = .ok []) :
    (lambda_handler fetch put uuids event).response
        = { statusCode := 500, body := "Failed to process S3 object." } := by
  rcases hfail with ⟨e, he⟩ | he <;> simp [lambda_handler, hex, he]

theorem forwarder_fetch_failure_witness :
    (lambda_handler fetchErrEx putOkEx uuidsEx eventEx).response
        = { statusCode := 500, body := "Failed to process S3 object." } :=
  forwarder_fetch_failure fetchErrEx putOkEx uuidsEx eventEx "my-bucket" "data.csv"
    (by decide) (Or.inl ⟨"NoSuchKey", rfl⟩)

/-- C9: for every trigger event whose records list contains more than one
record, the Forwarder behaves exactly as if only the first record were
present: the bucket and key come from the first record and all subsequent
records are ignored. -/
theorem forwarder_ignores_extra_records
    (fetch : String → String → Except String (List (List String)))
    (put : List KinesisRecord → PutRecordsOutcome)
    (uuids : Nat → String) (r r2 : EventRecord) (rest : List EventRecord) :
    lambda_handler fetch put uuids ⟨some (r :: r2 :: rest)⟩
      = lambda_handler fetch put uuids ⟨some [r]⟩ := by
  unfold lambda_handler
  have : extractBucketKey ⟨some (r :: r2 :: rest)⟩ = extractBucketKey ⟨some [r]⟩ := by
    unfold extractBucketKey
    rfl
  rw [this]

/-- C10: the Table Projection Job strips leading and trailing whitespace
from each comma-separated token of the column-list argument, so
`"a, b"` and `"a,b"` denote the same projection, and the job's behaviour
depends on the column string only through the parsed column list. -/
theorem job_column_list_stripped :
    (∀ (catalog : String → Option DataFrame) (p a b c d s1 s2 : String),
        parseColumns s1 = parseColumns s2 →
        emr_main catalog [p, a, b, c, d, s1] = emr_main catalog [p, a, b, c, d, s2]) ∧
    parseColumns "a, b" = ["a", "b"] ∧
    parseColumns "a,b" = ["a", "b"] ∧
    parseColumns " a , b " = ["a", "b"] := by
  refine ⟨?_, by decide, by decide, by decide⟩
  intro catalog p a b c d s1 s2 h
  simp only [emr_main, h]

theorem job_column_list_stripped_witness :
    emr_main catalogEx ["p", "indb", "intable", "outdb", "outtable", "x, y"]
      = emr_main catalogEx ["p", "indb", "intable", "outdb", "outtable", "x,y"] :=
  job_column_list_stripped.1 catalogEx "p" "indb" "intable" "outdb" "outtable"
    "x, y" "x,y" (by decide)

/-- C7: for every successful run of the Table Projection Job with a valid
column list, the job reads the full source table (one output row per
source row), the destination table is written in overwrite mode, and its
schema consists of exactly the requested columns in exactly the requested
order. -/
theorem job_projection (catalog : String → Option DataFrame)
    (input_db input_table output_db output_table : String)
    (cols : List String) (src : DataFrame)
    (hsrc : catalog (input_db ++ "." ++ input_table) = some src)
    (hcols : ∀ c ∈ cols, c ∈ src.schema) :
    process_glue_data catalog input_db input_table output_db output_table cols
      = .ok { table := output_db ++ "." ++ output_table,
              mode := "overwrite",
              df := { schema := cols,
                      rows := src.rows.map (projectRow src.schema cols) } } := by
  have hall : cols.all (fun c => src.schema.contains c) = true := by
    rw [List.all_eq_true]
    intro x hx
    exact List.elem_eq_true_of_mem (hcols x hx)
  simp only [process_glue_data, select, hall, if_true, hsrc]

theorem job_projection_witness :
    process_glue_data catalogEx "indb" "intable" "outdb" "outtable" ["z", "x"]
      = .ok { table := "outdb" ++ "." ++ "outtable",
              mode := "overwrite",
              df := { schema := ["z", "x"],
                      rows := (⟨["x", "y", "z"],
                        [["1", "2", "3"], ["4", "5", "6"]]⟩ : DataFrame).rows.map
                          (projectRow ["x", "y", "z"] ["z", "x"]) } } :=
  job_projection catalogEx "indb" "intable" "outdb" "outtable" ["z", "x"]
    ⟨["x", "y", "z"], [["1", "2", "3"], ["4", "5", "6"]]⟩ (by decide) (by decide)

/-- C8: the Table Projection Job's CLI exits with status 0 when the whole
read-project-write pipeline succeeds, exits with status 1 after logging
when any step of the pipeline fails, and exits with status -1 plus a usage
message when the number of `sys.argv` entries differs from six (five
positional arguments). -/
theorem job_exit_codes (catalog : String → Option DataFrame) (argv : List String) :
    (argv.length ≠ 6 →
      (emr_main catalog argv).exitCode = -1 ∧
      (emr_main catalog argv).logs
        = ["Usage: spark-submit process_glue_data.py <input_db> <input_table> <output_db> <output_table> <columns>"]) ∧
    (∀ p a b c d s, argv = [p, a, b, c, d, s] →
      (∀ w, process_glue_data catalog a b c d (parseColumns s) = .ok w →
        (emr_main catalog argv).exitCode = 0) ∧
      (∀ e, process_glue_data catalog a b c d (parseColumns s) = .error e →
        (emr_main catalog argv).exitCode = 1 ∧
        (emr_main catalog argv).logs = ["An error occurred: " ++ e])) := by
  constructor
  · intro hlen
    rcases argv with _ | ⟨a1, _ | ⟨a2, _ | ⟨a3, _ | ⟨a4, _ | ⟨a5, _ | ⟨a6, rest⟩⟩⟩⟩⟩⟩
    · exact ⟨rfl, rfl⟩
    · exact ⟨rfl, rfl⟩
    · exact ⟨rfl, rfl⟩
    · exact ⟨rfl, rfl⟩
    · exact ⟨rfl, rfl⟩
    · exact ⟨rfl, rfl⟩
    · cases rest with
      | nil => exact (hlen (by simp)).elim
      | cons a7 rest2 => exact ⟨rfl, rfl⟩
  · intro p a b c d s habv
    subst habv
    constructor
    · intro w hw
      simp [emr_main, hw]
    · intro e he
      simp [emr_main, he]

theorem job_exit_codes_witness :
    (emr_main catalogEx ["wrong"]).exitCode = -1 ∧
    (emr_main catalogEx ["p", "indb", "intable", "outdb", "outtable", "z,x"]).exitCode = 0 ∧
    (emr_main catalogEx ["p", "indb", "intable", "outdb", "outtable", "w"]).exitCode = 1 :=
  ⟨((job_exit_codes catalogEx ["wrong"]).1 (by decide)).1,
   ((job_exit_codes catalogEx
        ["p", "indb", "intable", "outdb", "outtable", "z,x"]).2
      "p" "indb" "intable" "outdb" "outtable" "z,x" rfl).1
     { table := "outdb.outtable", mode := "overwrite",
       df := { schema := ["z", "x"], rows := [["3", "1"], ["6", "4"]] } }
     rfl,
   (((job_exit_codes catalogEx
        ["p", "indb", "intable", "outdb", "outtable", "w"]).2
      "p" "indb" "intable" "outdb" "outtable" "w" rfl).2
     "cannot resolve column" rfl).1⟩

end AwsUpskilling
